import Mathlib

/-!
Verification of the ThreatDNA extraction and genome-building core.

This file gives a shallow embedding of the Go code in
internal/threatdnacore/parser.go and internal/threatdnacore/builder.go and
proves properties of it.  Modelling conventions:

* Go float64 values are modelled as exact rationals.  All constants involved
  (0.4, 0.15, 0.3, 0.2, 1.0) and their sums stay far from the binary rounding
  boundaries that the comparisons in the code test against, so the rational
  model and the float code take the same branches.
* Go time.Time is modelled as an integer instant; the zero value is 0, and
  Before/After are the strict order on integers.
* Go maps are modelled as association lists.  Where the code iterates over a
  map, the iteration order is passed in as an explicit parameter, since Go
  randomises map iteration order; theorems quantify over all orders that
  enumerate the key set.
* Text is modelled as a list of characters; all inputs of interest are ASCII,
  where Go byte indexing and character indexing coincide.
* Fallible functions return Except values.
-/

namespace ThreatDNA

/-- A tactic, technique or procedure extracted from text, with a confidence
score (parser.go, struct TTP). -/
structure TTP where
  techniqueID : String
  confidence : ℚ
  context : String
  tactic : String
deriving DecidableEq, Repr

/-- An indicator of compromise (parser.go, struct IOC). -/
structure IOC where
  type : String
  value : String
  context : String
deriving DecidableEq, Repr

/-- MITRE ATT&CK technique information (struct AttackTechnique). -/
structure AttackTechnique where
  id : String
  name : String
  description : String
  keywords : List String
  platforms : List String
  tactics : List String
deriving DecidableEq, Repr

/-- A normalised CTI record (struct CTIRecord).  The date is an integer
instant, 0 being the Go zero time. -/
structure CTIRecord where
  id : String
  source : String
  date : Int
  actor : String
  campaign : String
  rawText : String
  ttps : List TTP
  iocs : List IOC
  tags : List String
deriving DecidableEq, Repr

/-- The build metadata attached to a genome (builder.go, the Metadata map
with keys build_time, ttp_count and unique_tactics). -/
structure GenomeMeta where
  buildTime : Int
  ttpCount : Nat
  uniqueTactics : Nat
deriving DecidableEq, Repr

/-- A complete threat genome (struct Genome). -/
structure Genome where
  id : String
  sourceIDs : List String
  actor : String
  campaign : String
  ttps : List String
  tactics : List String
  platforms : List String
  cves : List String
  firstSeen : Int
  lastSeen : Int
  confidence : ℚ
  sourceCount : Nat
  iocCount : Nat
  allSourceText : String
  metadata : GenomeMeta
deriving DecidableEq, Repr

/-! ## String helpers mirroring the Go strings package -/

/-- strings.ToUpper, restricted to ASCII. -/
def strToUpper (s : String) : String := ⟨s.data.map Char.toUpper⟩

/-- strings.HasPrefix s pre. -/
def hasPre (s pre : String) : Bool := pre.data.isPrefixOf s.data

/-- Whether sub occurs as a contiguous sublist of the second argument. -/
def listContainsSub (sub : List Char) : List Char → Bool
  | [] => sub.isEmpty
  | c :: rest => sub.isPrefixOf (c :: rest) || listContainsSub sub rest

/-- strings.Contains s sub. -/
def containsStr (s sub : String) : Bool := listContainsSub sub.data s.data

/-- strings.Index, as an optional character index of the first occurrence. -/
def listIndexOfSub (sub : List Char) : List Char → Option Nat
  | [] => if sub.isEmpty then some 0 else none
  | c :: rest =>
    if sub.isPrefixOf (c :: rest) then some 0
    else (listIndexOfSub sub rest).map (· + 1)

/-- strings.TrimSpace on a character list. -/
def trimSpaceList (l : List Char) : List Char :=
  ((l.dropWhile Char.isWhitespace).reverse.dropWhile Char.isWhitespace).reverse

/-- strings.Join with a separator. -/
def strJoin (sep : String) : List String → String
  | [] => ""
  | [s] => s
  | s :: rest => s ++ sep ++ strJoin sep rest

/-! ## Confidence arithmetic (parser.go, calculateConfidence) -/

/-- calculateConfidence from parser.go: base 0.4, a frequency bonus of
matchCount times 0.15 capped at 0.3, an extra 0.2 when the upper-cased text
literally contains the technique identifier, clamped at 1.0. -/
def calculateConfidence (matchCount : Nat) (text techniqueID : List Char) : ℚ :=
  let baseConfidence : ℚ := 0.4
  let freqBonus : ℚ := (matchCount : ℚ) * 0.15
  let freqBonus : ℚ := if freqBonus > 0.3 then 0.3 else freqBonus
  let baseConfidence : ℚ :=
    if listContainsSub techniqueID (text.map Char.toUpper) then baseConfidence + 0.2
    else baseConfidence
  let confidence := baseConfidence + freqBonus
  if confidence > 1.0 then 1.0 else confidence

/-- extractContext from parser.go: a window of contextLength characters on
each side of the match, trimmed, with ellipses at cut edges.  Natural
subtraction performs the clamp-at-zero the Go code does explicitly. -/
def extractContext (text : List Char) (start stop contextLength : Nat) : String :=
  let textLen := text.length
  let contextStart := start - contextLength
  let contextEnd := min (stop + contextLength) textLen
  let ctx := (text.take contextEnd).drop contextStart
  let ctx := trimSpaceList ctx
  let ctx := if contextStart > 0 then ("...".data ++ ctx) else ctx
  let ctx := if contextEnd < textLen then (ctx ++ "...".data) else ctx
  ⟨ctx⟩

/-! ## A small matcher for the regular expressions compiled in parser.go

The extractor only ever compiles: case-insensitive alternations of quoted
literals (technique name, word-bounded identifier and keywords), and the three
fixed indicator expressions built from character classes, bounded greedy
repetition and word boundaries.  The matcher below implements exactly these
constructs with the leftmost-first (Perl-style) preference order that the Go
regexp package uses for non-POSIX expressions.  A compiled alternative carries
its own word-boundary flags, since a backslash-b in those patterns only ever
occurs at the two ends of an alternative. -/

/-- Regular-expression shapes used by the compiled patterns. -/
inductive Re where
  | lit (ci : Bool) (cs : List Char)
  | ranges (rs : List (Char × Char))
  | seq (a b : Re)
  | alt (a b : Re)
  | rep (r : Re) (lo hi : Nat)
  | plus (r : Re)
deriving Repr

/-- Literal match at the head of the text, optionally case-insensitive
(ASCII folding, as Go does for ASCII input). -/
def litMatches (ci : Bool) : List Char → List Char → Bool
  | [], _ => true
  | _ :: _, [] => false
  | c :: cs, d :: ds =>
    (if ci then c.toLower == d.toLower else c == d) && litMatches ci cs ds

/-- Character-class membership as a union of inclusive ranges. -/
def inRanges (c : Char) : List (Char × Char) → Bool
  | [] => false
  | (lo, hi) :: rest => (decide (lo ≤ c) && decide (c ≤ hi)) || inRanges c rest

/-- Concatenation of length lists used by the matcher. -/
def listFlat {α β : Type} (f : α → List β) : List α → List β
  | [] => []
  | a :: rest => f a ++ listFlat f rest

/-- Greedy bounded repetition: all match lengths for between lo and hi
copies of the body, in backtracking preference order (more copies first,
longer bodies first).  Zero-length body matches do not start another copy,
which agrees with the engine on the patterns in use, whose repetition bodies
always consume input. -/
def repLensAux (f : List Char → List Nat) : Nat → Nat → List Char → List Nat
  | lo, 0, _ => if lo = 0 then [0] else []
  | lo, hi + 1, s =>
    let more := listFlat (fun l =>
      if l = 0 then []
      else (repLensAux f (lo - 1) hi (s.drop l)).map (fun rest => l + rest)) (f s)
    if lo = 0 then more ++ [0] else more

/-- All match lengths of an expression at the head of the text, in
backtracking preference order.  Unbounded plus is bounded by the text length,
which is exact because every repetition body in use consumes input. -/
def Re.lens : Re → List Char → List Nat
  | .lit ci cs, s => if litMatches ci cs s then [cs.length] else []
  | .ranges rs, s =>
    match s with
    | [] => []
    | c :: _ => if inRanges c rs then [1] else []
  | .seq a b, s => listFlat (fun l => (Re.lens b (s.drop l)).map (fun m => l + m)) (Re.lens a s)
  | .alt a b, s => Re.lens a s ++ Re.lens b s
  | .rep r lo hi, s => repLensAux (Re.lens r) lo hi s
  | .plus r, s => repLensAux (Re.lens r) 1 s.length s

/-- One alternative of a compiled pattern, with word-boundary anchors at the
ends when the source pattern wraps the alternative in backslash-b. -/
structure PatAlt where
  leftB : Bool
  rightB : Bool
  re : Re

/-- Word characters for the boundary assertion: letters, digits, underscore. -/
def wordCharB (c : Char) : Bool := c.isAlphanum || c == '_'

/-- Whether position i of the text holds a word character. -/
def wordCharAt (t : List Char) (i : Nat) : Bool :=
  match t.drop i with
  | [] => false
  | c :: _ => wordCharB c

/-- The word-boundary assertion at position i. -/
def isBoundary (t : List Char) (i : Nat) : Bool :=
  (match i with
   | 0 => false
   | j + 1 => wordCharAt t j) != wordCharAt t i

/-- First length in preference order satisfying a predicate. -/
def findFirstLen (p : Nat → Bool) : List Nat → Option Nat
  | [] => none
  | l :: rest => if p l then some l else findFirstLen p rest

/-- Match of one alternative at position i: the leftmost-first length whose
right boundary assertion also holds. -/
def altMatchAt (t : List Char) (i : Nat) (pa : PatAlt) : Option Nat :=
  if pa.leftB && !isBoundary t i then none
  else findFirstLen (fun l => !pa.rightB || isBoundary t (i + l)) (pa.re.lens (t.drop i))

/-- Match of a whole pattern at position i: alternatives are tried in the
order they appear in the source expression. -/
def patMatchAt (t : List Char) (i : Nat) : List PatAlt → Option Nat
  | [] => none
  | pa :: rest =>
    match altMatchAt t i pa with
    | some l => some l
    | none => patMatchAt t i rest

/-- Scanning loop of FindAll: successive non-overlapping leftmost matches,
advancing by one position after an empty match, stopping at the limit.  The
fuel argument dominates the number of scan steps. -/
def findAllFrom (pat : List PatAlt) (t : List Char) : Nat → Nat → Nat → List (Nat × Nat)
  | 0, _, _ => []
  | fuel + 1, i, limit =>
    if limit = 0 then []
    else if t.length < i then []
    else
      match patMatchAt t i pat with
      | some l => (i, i + l) :: findAllFrom pat t fuel (i + max l 1) (limit - 1)
      | none => findAllFrom pat t fuel (i + 1) limit

/-- regexp FindAllStringIndex with a positive limit. -/
def findAllIdx (pat : List PatAlt) (t : List Char) (limit : Nat) : List (Nat × Nat) :=
  findAllFrom pat t (t.length + 2) 0 limit

/-- Substring of the text between two indices. -/
def sliceStr (t : List Char) (a b : Nat) : String := ⟨(t.take b).drop a⟩

/-- regexp FindAllString with a positive limit. -/
def findAllStrings (pat : List PatAlt) (t : List Char) (limit : Nat) : List String :=
  (findAllIdx pat t limit).map (fun m => sliceStr t m.1 m.2)

/-! ## The fixed indicator patterns of NewTechniqueExtractor -/

/-- The class 0-9. -/
def digitRe : Re := .ranges [('0', '9')]

/-- The expression for IPv4-shaped addresses: word-bounded, three groups of
one to three digits each followed by a dot, then one to three digits. -/
def ipRe : Re :=
  .seq (.rep (.seq (.rep digitRe 1 3) (.lit false ['.'])) 3 3) (.rep digitRe 1 3)

/-- The compiled ip pattern. -/
def iocPatternIP : List PatAlt := [⟨true, true, ipRe⟩]

/-- The class a-zA-Z0-9. -/
def alnumRanges : List (Char × Char) := [('a', 'z'), ('A', 'Z'), ('0', '9')]

/-- The expression for domain-shaped tokens: word-bounded, an alphanumeric
head, an optional run of up to thirty alphanumerics or dashes ending in an
alphanumeric, then one or more groups of a dot and two to ten letters. -/
def domainRe : Re :=
  .seq (.ranges alnumRanges)
    (.seq
      (.rep (.seq (.rep (.ranges (alnumRanges ++ [('-', '-')])) 0 30) (.ranges alnumRanges)) 0 1)
      (.plus (.seq (.lit false ['.']) (.rep (.ranges [('a', 'z'), ('A', 'Z')]) 2 10))))

/-- The compiled domain pattern. -/
def iocPatternDomain : List PatAlt := [⟨true, true, domainRe⟩]

/-- The class a-fA-F0-9. -/
def hexRanges : List (Char × Char) := [('a', 'f'), ('A', 'F'), ('0', '9')]

/-- The expression for 32 to 64 character hexadecimal strings. -/
def hashRe : Re := .rep (.ranges hexRanges) 32 64

/-- The compiled hash pattern. -/
def iocPatternHash : List PatAlt := [⟨true, true, hashRe⟩]

/-! ## Extraction engine (parser.go, TechniqueExtractor) -/

/-- The compiled state of a TechniqueExtractor: the technique data and the
per-technique compiled patterns.  Both Go fields are maps; here they are
association lists, and the order of the patterns list is the iteration order
the map range loop happens to use, over which theorems quantify. -/
structure TechniqueExtractor where
  techniques : List (String × AttackTechnique)
  patterns : List (String × List PatAlt)

/-- Map lookup in the techniques table. -/
def lookupTech (l : List (String × AttackTechnique)) (id : String) : Option AttackTechnique :=
  match l.find? (fun p => p.1 == id) with
  | some p => some p.2
  | none => none

/-- The per-technique pattern NewTechniqueExtractor compiles: a
case-insensitive alternation of the quoted display name, the word-bounded
identifier and the word-bounded keywords longer than four characters, in
that order. -/
def compileTechPattern (id : String) (tech : AttackTechnique) : List PatAlt :=
  ⟨false, false, .lit true tech.name.data⟩ ::
  ⟨true, true, .lit true id.data⟩ ::
  tech.keywords.filterMap (fun k =>
    if k.length > 4 then some ⟨true, true, Re.lit true k.data⟩ else none)

/-- The range loop of ExtractTTPs: for each technique pattern in iteration
order, find up to three matches; on at least one match and a fresh
identifier, emit a TTP with confidence, context of the first match, and the
first listed tactic of the technique. -/
def ttpLoop (e : TechniqueExtractor) (t : List Char) :
    List (String × List PatAlt) → List String → List TTP
  | [], _ => []
  | (techniqueID, pattern) :: rest, seen =>
    let ms := findAllIdx pattern t 3
    if ms.length > 0 ∧ techniqueID ∉ seen then
      let confidence := calculateConfidence ms.length t techniqueID.data
      let context :=
        match ms with
        | [] => ""
        | m :: _ => extractContext t m.1 m.2 40
      let tactic :=
        match lookupTech e.techniques techniqueID with
        | some tech =>
          match tech.tactics with
          | [] => ""
          | tac :: _ => tac
        | none => ""
      ⟨techniqueID, confidence, context, tactic⟩ :: ttpLoop e t rest (techniqueID :: seen)
    else
      ttpLoop e t rest seen

/-- ExtractTTPs from parser.go: truncate the text at 50000 characters with an
ellipsis, then run the pattern loop. -/
def extractTTPsGo (e : TechniqueExtractor) (text : String) : List TTP :=
  let t := text.data
  let t := if t.length > 50000 then t.take 50000 ++ "...".data else t
  ttpLoop e t e.patterns []

/-! ## Indicator extraction (parser.go, ExtractIOCs and isValidIOC) -/

/-- The domain blacklist of isValidIOC. -/
def commonDomains : List String := ["microsoft.com", "google.com", "github.com", "example.com"]

/-- isValidIOC from parser.go: ip values starting with 127. or 10. are
rejected, domain values containing a blacklisted domain are rejected, and
every retained value must be non-empty. -/
def isValidIOC (iocType value : String) : Bool :=
  if iocType = "ip" then
    if hasPre value "127." || hasPre value "10." then false else decide (0 < value.length)
  else if iocType = "domain" then
    if commonDomains.any (fun c => containsStr value c) then false
    else decide (0 < value.length)
  else decide (0 < value.length)

/-- extractIOCContext from parser.go: case-insensitive index of the value in
the text, then a 25-character context window. -/
def extractIOCContext (text : List Char) (ioc : String) (contextLength : Nat) : String :=
  match listIndexOfSub (ioc.data.map Char.toLower) (text.map Char.toLower) with
  | none => ""
  | some idx => extractContext text idx (idx + ioc.length) contextLength

/-- The inner loop of ExtractIOCs over the matches of one indicator type,
threading the seen set (keyed by type:value) and the accumulated result. -/
def iocAddMatches (t : List Char) (iocType : String) :
    List String → List String × List IOC → List String × List IOC
  | [], st => st
  | m :: rest, (seen, acc) =>
    let key := iocType ++ ":" ++ m
    if key ∉ seen ∧ isValidIOC iocType m then
      iocAddMatches t iocType rest
        (key :: seen, acc ++ [⟨iocType, m, extractIOCContext t m 25⟩])
    else
      iocAddMatches t iocType rest (seen, acc)

/-- The outer loop of ExtractIOCs over the indicator-pattern map, in the
iteration order given by the association list. -/
def iocOuter (t : List Char) :
    List (String × List PatAlt) → List String × List IOC → List String × List IOC
  | [], st => st
  | (iocType, pat) :: rest, st =>
    iocOuter t rest (iocAddMatches t iocType (findAllStrings pat t 20) st)

/-- ExtractIOCs from parser.go: for each indicator pattern collect up to
twenty matches, deduplicate by type and value, keep those passing
isValidIOC, and attach a 25-character context. -/
def extractIOCsGo (iocPats : List (String × List PatAlt)) (text : String) : List IOC :=
  (iocOuter text.data iocPats ([], [])).2

/-- One iteration order of the indicator-pattern map, listing the three fixed
patterns in their insertion order. -/
def iocPatsDefault : List (String × List PatAlt) :=
  [("ip", iocPatternIP), ("domain", iocPatternDomain), ("hash", iocPatternHash)]

/-! ## SHA-256 and identifier generation (builder.go, generateGenomeID)

Bytes and 32-bit words are natural numbers reduced modulo two to the eighth
and two to the thirty-second respectively. -/

/-- Addition modulo two to the thirty-second. -/
def add32 (a b : Nat) : Nat := (a + b) % 4294967296

/-- Right rotation of a 32-bit word. -/
def rotr32 (x n : Nat) : Nat := ((x >>> n) ||| (x <<< (32 - n))) % 4294967296

/-- The big sigma-0 function of SHA-256, on rotations 2, 13 and 22. -/
def sumA0 (x : Nat) : Nat := (rotr32 x 2) ^^^ (rotr32 x 13) ^^^ (rotr32 x 22)

/-- The big sigma-1 function of SHA-256, on rotations 6, 11 and 25. -/
def sumA1 (x : Nat) : Nat := (rotr32 x 6) ^^^ (rotr32 x 11) ^^^ (rotr32 x 25)

/-- The small sigma-0 function of SHA-256, on rotations 7 and 18 and shift 3. -/
def sumW0 (x : Nat) : Nat := (rotr32 x 7) ^^^ (rotr32 x 18) ^^^ (x >>> 3)

/-- The small sigma-1 function of SHA-256, on rotations 17 and 19 and shift 10. -/
def sumW1 (x : Nat) : Nat := (rotr32 x 17) ^^^ (rotr32 x 19) ^^^ (x >>> 10)

/-- The choice function of SHA-256. -/
def chFn (x y z : Nat) : Nat := (x &&& y) ^^^ ((x ^^^ 4294967295) &&& z)

/-- The majority function of SHA-256. -/
def majFn (x y z : Nat) : Nat := (x &&& y) ^^^ (x &&& z) ^^^ (y &&& z)

/-- The round constants of SHA-256, in decimal. -/
def K256 : List Nat :=
  [1116352408, 1899447441, 3049323471, 3921009573, 961987163, 1508970993,
   2453635748, 2870763221, 3624381080, 310598401, 607225278, 1426881987,
   1925078388, 2162078206, 2614888103, 3248222580, 3835390401, 4022224774,
   264347078, 604807628, 770255983, 1249150122, 1555081692, 1996064986,
   2554220882, 2821834349, 2952996808, 3210313671, 3336571891, 3584528711,
   113926993, 338241895, 666307205, 773529912, 1294757372, 1396182291,
   1695183700, 1986661051, 2177026350, 2456956037, 2730485921, 2820302411,
   3259730800, 3345764771, 3516065817, 3600352804, 4094571909, 275423344,
   430227734, 506948616, 659060556, 883997877, 958139571, 1322822218,
   1537002063, 1747873779, 1955562222, 2024104815, 2227730452, 2361852424,
   2428436474, 2756734187, 3204031479, 3329325298]

/-- The initial hash state of SHA-256, in decimal. -/
def H256 : List Nat :=
  [1779033703, 3144134277, 1013904242, 2773480762,
   1359893119, 2600822924, 528734635, 1541459225]

/-- Big-endian eight-byte rendering of a length in bits. -/
def be64 (n : Nat) : List Nat :=
  [(n >>> 56) % 256, (n >>> 48) % 256, (n >>> 40) % 256, (n >>> 32) % 256,
   (n >>> 24) % 256, (n >>> 16) % 256, (n >>> 8) % 256, n % 256]

/-- SHA-256 padding: the byte 128, zeros to 56 modulo 64, then the bit
length. -/
def sha256Pad (msg : List Nat) : List Nat :=
  let z := (119 - msg.length % 64) % 64
  msg ++ [128] ++ List.replicate z 0 ++ be64 (msg.length * 8)

/-- Big-endian grouping of bytes into 32-bit words. -/
def toWords : List Nat → List Nat
  | b0 :: b1 :: b2 :: b3 :: rest => (((b0 * 256 + b1) * 256 + b2) * 256 + b3) :: toWords rest
  | _ => []

/-- One extension step of the message schedule. -/
def schedStep (w : List Nat) : List Nat :=
  let n := w.length
  w ++ [add32 (add32 (sumW1 (w.getD (n - 2) 0)) (w.getD (n - 7) 0))
          (add32 (sumW0 (w.getD (n - 15) 0)) (w.getD (n - 16) 0))]

/-- Iterated message-schedule extension. -/
def schedule (w : List Nat) : Nat → List Nat
  | 0 => w
  | k + 1 => schedule (schedStep w) k

/-- One compression round on the eight-word state. -/
def compressStep (state : List Nat) (kw : Nat × Nat) : List Nat :=
  match state with
  | [a, b, c, d, e, f, g, h] =>
    let t1 := add32 (add32 (add32 h (sumA1 e)) (add32 (chFn e f g) kw.1)) kw.2
    let t2 := add32 (sumA0 a) (majFn a b c)
    [add32 t1 t2, a, b, c, add32 d t1, e, f, g]
  | s => s

/-- Compression of one 64-byte block into the hash state. -/
def compressBlock (h : List Nat) (block : List Nat) : List Nat :=
  let w := schedule (toWords block) 48
  let fin := (K256.zip w).foldl compressStep h
  (h.zip fin).map (fun p => add32 p.1 p.2)

/-- Splitting a byte list into 64-byte chunks; the fuel dominates the number
of chunks. -/
def chunksAux : Nat → List Nat → List (List Nat)
  | 0, _ => []
  | fuel + 1, l => if l.isEmpty then [] else l.take 64 :: chunksAux fuel (l.drop 64)

/-- SHA-256 of a byte list, as the 32-byte digest. -/
def sha256Bytes (msg : List Nat) : List Nat :=
  let padded := sha256Pad msg
  let hs := (chunksAux padded.length padded).foldl compressBlock H256
  listFlat (fun h => [(h >>> 24) % 256, (h >>> 16) % 256, (h >>> 8) % 256, h % 256]) hs

/-- One lowercase hexadecimal digit. -/
def hexDigit (n : Nat) : Char := if n < 10 then Char.ofNat (48 + n) else Char.ofNat (87 + n)

/-- Lowercase hexadecimal rendering of a byte list, as fmt %x produces. -/
def bytesToHex (bs : List Nat) : String :=
  ⟨listFlat (fun b => [hexDigit (b / 16), hexDigit (b % 16)]) bs⟩

/-- generateGenomeID from builder.go: the techniques joined by vertical bars,
then the actor, then the campaign, hashed with SHA-256; the first twelve hex
digits are combined with the current calendar date, passed here as the today
parameter (time.Now rendered in the 20060102 layout). -/
def generateGenomeID (ttps : List String) (actor campaign today : String) : String :=
  let content := strJoin "|" ttps ++ "|" ++ actor ++ "|" ++ campaign
  let hash := sha256Bytes (content.data.map Char.toNat)
  let shortHash : String := ⟨(bytesToHex hash).data.take 12⟩
  "G-" ++ today ++ "-" ++ shortHash

/-! ## Genome aggregation (builder.go) -/

/-- Insertion into a map-as-list of keys: a no-op when present, appended
otherwise.  Models writing true into a Go set-valued map. -/
def insertOnce (l : List String) (x : String) : List String :=
  if x ∈ l then l else l ++ [x]

/-- isValidPlatform from builder.go: case-insensitive membership in the fixed
platform vocabulary. -/
def isValidPlatform (tag : String) : Bool :=
  let validPlatforms := ["Windows", "Linux", "macOS", "Android", "iOS", "Network"]
  validPlatforms.any (fun platform => strToUpper platform == strToUpper tag)

/-- RemoveDuplicates from builder.go: keep the first occurrence of each
string. -/
def RemoveDuplicates (items : List String) : List String :=
  let step := fun (st : List String × List String) item =>
    if item ∈ st.1 then st else (item :: st.1, st.2 ++ [item])
  (items.foldl step ([], [])).2

/-- The eligible actor votes across a batch: non-empty actors other than the
literal Unknown, in record order (the multiset behind actorCounts). -/
def actorVotes (records : List CTIRecord) : List String :=
  records.filterMap (fun r =>
    if r.actor ≠ "" ∧ r.actor ≠ "Unknown" then some r.actor else none)

/-- The eligible campaign votes across a batch: non-empty campaigns, in
record order (the multiset behind campaignCounts). -/
def campaignVotes (records : List CTIRecord) : List String :=
  records.filterMap (fun r => if r.campaign ≠ "" then some r.campaign else none)

/-- The strict-argmax loop of determineActorAndCampaign: walk the map keys in
iteration order, replacing the best candidate whenever a strictly larger
count appears. -/
def pickBestAux (votes : List String) : List String → String → Nat → String
  | [], best, _ => best
  | k :: rest, best, maxCount =>
    if votes.count k > maxCount then pickBestAux votes rest k (votes.count k)
    else pickBestAux votes rest best maxCount

/-- A valid iteration order of the map whose keys are the distinct elements
of the vote multiset: any enumeration of that key set. -/
def ValidIterOrder (votes order : List String) : Prop :=
  List.Perm votes.dedup order

/-- determineActorAndCampaign from builder.go, with the two map iteration
orders passed in explicitly. -/
def determineActorAndCampaign (records : List CTIRecord)
    (actorOrder campaignOrder : List String) : String × String :=
  (pickBestAux (actorVotes records) actorOrder "" 0,
   pickBestAux (campaignVotes records) campaignOrder "" 0)

/-- The pooled technique list of a batch: every extracted technique of every
record, in record order (the allTTPs append loop of BuildGenome). -/
def poolTTPs (records : List CTIRecord) : List TTP :=
  records.foldl (fun acc r => acc ++ r.ttps) []

/-- The dedup walk of BuildGenome over the sorted pool: for each technique
identifier not yet seen, record the identifier, the tactic (unknown when
empty) and the confidence contribution. -/
def dedupWalkAux : List TTP → List String → List String × List String × ℚ
  | [], _ => ([], [], 0)
  | ttp :: rest, seen =>
    if ttp.techniqueID ∈ seen then dedupWalkAux rest seen
    else
      let r := dedupWalkAux rest (ttp.techniqueID :: seen)
      (ttp.techniqueID :: r.1,
       (if ttp.tactic = "" then "unknown" else ttp.tactic) :: r.2.1,
       ttp.confidence + r.2.2)

/-- The surviving entries of the dedup walk: the first occurrence of each
technique identifier, in order. -/
def firstOccByID : List TTP → List String → List TTP
  | [], _ => []
  | ttp :: rest, seen =>
    if ttp.techniqueID ∈ seen then firstOccByID rest seen
    else ttp :: firstOccByID rest (ttp.techniqueID :: seen)

/-- The postcondition the Go sort package documents for sort.Slice with the
descending-confidence comparison: the output is a permutation of the input
and no element is followed by one of strictly larger confidence.  Stability
is deliberately not part of this contract: sort.Slice is documented as not
guaranteed to be stable. -/
def SortSliceSpec (input output : List TTP) : Prop :=
  List.Perm output input ∧ output.Pairwise (fun a b => b.confidence ≤ a.confidence)

/-- Tag classification loop of BuildGenome: tags with a case-insensitive
CVE- prefix join the CVE set, tags naming a platform join the platform set,
in map-insertion order. -/
def classifyTags (records : List CTIRecord) : List String × List String :=
  records.foldl (fun acc r =>
    r.tags.foldl (fun (a : List String × List String) tag =>
      if hasPre (strToUpper tag) "CVE-" then (insertOnce a.1 tag, a.2)
      else if isValidPlatform tag then (a.1, insertOnce a.2 tag)
      else a) acc) ([], [])

/-- BuildGenome from builder.go.  The sort.Slice call is modelled by the
sortImpl parameter (constrained through SortSliceSpec in the theorems), the
two map iteration orders of determineActorAndCampaign by actorOrder and
campaignOrder, time.Now by the now instant and its 20060102 rendering by
today.  Set-valued maps are converted to slices in insertion order. -/
def BuildGenome (sortImpl : List TTP → List TTP) (actorOrder campaignOrder : List String)
    (now : Int) (today : String) (records : List CTIRecord) : Except String Genome :=
  if records.length = 0 then .error "no records provided"
  else
    let sourceIDs := records.foldl (fun acc r => insertOnce acc r.id) []
    let firstSeen := records.foldl (fun fs r => if fs = 0 ∨ r.date < fs then r.date else fs) 0
    let lastSeen := records.foldl (fun ls r => if ls = 0 ∨ ls < r.date then r.date else ls) 0
    let tagSets := classifyTags records
    let totalIOCs := records.foldl (fun n r => n + r.iocs.length) 0
    let allSourceText := records.foldl (fun s r => s ++ r.rawText ++ "\n") ""
    let sorted := sortImpl (poolTTPs records)
    let walk := dedupWalkAux sorted []
    let ttps := walk.1
    let tactics := walk.2.1
    let totalConfidence := walk.2.2
    let ac := determineActorAndCampaign records actorOrder campaignOrder
    let avgConfidence : ℚ :=
      if ttps.length > 0 then totalConfidence / (ttps.length : ℚ) else 0
    .ok
      { id := generateGenomeID ttps ac.1 ac.2 today
        sourceIDs := sourceIDs
        actor := ac.1
        campaign := ac.2
        ttps := ttps
        tactics := tactics
        platforms := tagSets.2
        cves := tagSets.1
        firstSeen := firstSeen
        lastSeen := lastSeen
        confidence := avgConfidence
        sourceCount := records.length
        iocCount := totalIOCs
        allSourceText := allSourceText
        metadata :=
          { buildTime := now
            ttpCount := ttps.length
            uniqueTactics := (RemoveDuplicates tactics).length } }

/-! ## Statistics engine (builder.go, GetGenomeStats) -/

/-- The statistics record (struct GenomeStats).  The frequency tables are
count functions; the ioc-type table is never written by GetGenomeStats. -/
structure GenomeStats where
  totalGenomes : Nat
  uniqueActors : Nat
  uniqueCampaigns : Nat
  avgGenomeLength : ℚ
  ttpFrequency : String → Nat
  tacticFrequency : String → Nat
  iocTypeFrequency : String → Nat

/-- The accumulator of the GetGenomeStats cursor scan. -/
structure StatsAcc where
  totalGenomes : Nat
  totalLength : Nat
  actors : List String
  campaigns : List String
  ttpFreq : String → Nat
  tacticFreq : String → Nat

/-- Increment of one key of a count table. -/
def bump (f : String → Nat) (k : String) : String → Nat :=
  fun s => if s = k then f k + 1 else f s

/-- The per-genome update of the scan: count the genome, add its sequence
length, record non-empty actor and campaign, bump every technique occurrence
and every tactic occurrence other than unknown. -/
def statsStep (acc : StatsAcc) (g : Genome) : StatsAcc :=
  { totalGenomes := acc.totalGenomes + 1
    totalLength := acc.totalLength + g.ttps.length
    actors := if g.actor ≠ "" then insertOnce acc.actors g.actor else acc.actors
    campaigns := if g.campaign ≠ "" then insertOnce acc.campaigns g.campaign else acc.campaigns
    ttpFreq := g.ttps.foldl bump acc.ttpFreq
    tacticFreq := g.tactics.foldl
      (fun f tac => if tac ≠ "unknown" then bump f tac else f) acc.tacticFreq }

/-- The cursor scan: stored entries that fail to decode (none) are skipped. -/
def statsFold : StatsAcc → List (Option Genome) → StatsAcc
  | acc, [] => acc
  | acc, none :: rest => statsFold acc rest
  | acc, some g :: rest => statsFold (statsStep acc g) rest

/-- The empty accumulator. -/
def initStatsAcc : StatsAcc :=
  { totalGenomes := 0, totalLength := 0, actors := [], campaigns := []
    ttpFreq := fun _ => 0, tacticFreq := fun _ => 0 }

/-- GetGenomeStats from builder.go, over the decoded-or-corrupt entries of
the genome bucket in cursor order. -/
def GetGenomeStats (entries : List (Option Genome)) : GenomeStats :=
  let acc := statsFold initStatsAcc entries
  { totalGenomes := acc.totalGenomes
    uniqueActors := acc.actors.length
    uniqueCampaigns := acc.campaigns.length
    avgGenomeLength :=
      if acc.totalGenomes > 0 then (acc.totalLength : ℚ) / (acc.totalGenomes : ℚ) else 0
    ttpFrequency := acc.ttpFreq
    tacticFrequency := acc.tacticFreq
    iocTypeFrequency := fun _ => 0 }

/-- The genomes a stored collection decodes to, in cursor order. -/
def decodedGenomes (entries : List (Option Genome)) : List Genome :=
  entries.filterMap id

/-- Reading of the claim for the technique table: the number of stored
genomes whose technique sequence contains the technique. -/
def countGenomesContaining (entries : List (Option Genome)) (t : String) : Nat :=
  ((decodedGenomes entries).filter (fun g => t ∈ g.ttps)).length

/-! ## Claim-side comparison definitions -/

/-- Reading of claim C6: confidence is 0.4 plus the smaller of 0.3 and
matchCount times 0.15, plus 0.2 on an exact upper-case mention, clamped to
1.0. -/
def confidenceClaimFormula (matchCount : Nat) (text techniqueID : List Char) : ℚ :=
  min 1
    (0.4 + min 0.3 ((matchCount : ℚ) * 0.15)
      + (if listContainsSub techniqueID (text.map Char.toUpper) then 0.2 else 0))

/-! ## Theorems about the extraction engine -/

/-- Closed form of the confidence computation: the clamp at 1.0 never
fires, leaving the base (0.6 on an exact mention, else 0.4) plus the capped
frequency bonus. -/
theorem calcConf_closed (n : Nat) (text id : List Char) :
    calculateConfidence n text id
      = (if listContainsSub id (text.map Char.toUpper) then (0.6 : ℚ) else 0.4)
        + min 0.3 ((n : ℚ) * 0.15) := by
  have hx0 : (0 : ℚ) ≤ (n : ℚ) * 0.15 := by positivity
  simp only [calculateConfidence]
  rcases le_or_lt ((n : ℚ) * 0.15) 0.3 with h1 | h1
  · rw [if_neg (not_lt.mpr h1), min_eq_right h1]
    by_cases hb : listContainsSub id (List.map Char.toUpper text) = true
    · rw [if_pos hb, if_pos hb, if_neg (by linarith)]
      norm_num
    · rw [if_neg hb, if_neg hb, if_neg (by linarith)]
  · rw [if_pos h1, min_eq_left h1.le]
    by_cases hb : listContainsSub id (List.map Char.toUpper text) = true
    · rw [if_pos hb, if_pos hb, if_neg (by norm_num)]
      norm_num
    · rw [if_neg hb, if_neg hb, if_neg (by norm_num)]

/-- The claim formula has the same closed form. -/
theorem claimFormula_closed (n : Nat) (text id : List Char) :
    confidenceClaimFormula n text id
      = (if listContainsSub id (text.map Char.toUpper) then (0.6 : ℚ) else 0.4)
        + min 0.3 ((n : ℚ) * 0.15) := by
  have hmin1 : min (0.3 : ℚ) ((n : ℚ) * 0.15) ≤ 0.3 := min_le_left _ _
  simp only [confidenceClaimFormula]
  by_cases hb : listContainsSub id (List.map Char.toUpper text) = true
  · rw [if_pos hb, if_pos hb, min_eq_right (by linarith)]
    ring
  · rw [if_neg hb, if_neg hb, min_eq_right (by linarith)]
    ring

/-- For at least one match the confidence lies between 0.55 and 0.9. -/
theorem calculateConfidence_bounds (n : Nat) (text id : List Char) (h : 1 ≤ n) :
    (0.55 : ℚ) ≤ calculateConfidence n text id ∧ calculateConfidence n text id ≤ 0.9 := by
  have hn : (1 : ℚ) ≤ (n : ℚ) := by exact_mod_cast h
  have h15 : (0.15 : ℚ) ≤ (n : ℚ) * 0.15 := by nlinarith
  have hmin1 : min (0.3 : ℚ) ((n : ℚ) * 0.15) ≤ 0.3 := min_le_left _ _
  have hmin2 : (0.15 : ℚ) ≤ min (0.3 : ℚ) ((n : ℚ) * 0.15) := le_min (by norm_num) h15
  rw [calcConf_closed]
  constructor <;> split_ifs <;> linarith

/-- C6: for every technique with at least one match, the extracted
confidence equals the documented formula, base 0.4 plus the frequency bonus
min(0.3, matchCount times 0.15) plus 0.2 on an exact upper-case mention,
clamped to 1.0; consequently it lies between 0 and 1. -/
theorem C6_confidence_formula (matchCount : Nat) (text techniqueID : List Char)
    (h : 1 ≤ matchCount) :
    calculateConfidence matchCount text techniqueID
        = confidenceClaimFormula matchCount text techniqueID
      ∧ 0 ≤ calculateConfidence matchCount text techniqueID
      ∧ calculateConfidence matchCount text techniqueID ≤ 1 := by
  have hn : (1 : ℚ) ≤ (matchCount : ℚ) := by exact_mod_cast h
  have h15 : (0.15 : ℚ) ≤ (matchCount : ℚ) * 0.15 := by nlinarith
  have hx0 : (0 : ℚ) ≤ (matchCount : ℚ) * 0.15 := by positivity
  have hmin1 : min (0.3 : ℚ) ((matchCount : ℚ) * 0.15) ≤ 0.3 := min_le_left _ _
  have hmin0 : (0 : ℚ) ≤ min (0.3 : ℚ) ((matchCount : ℚ) * 0.15) := le_min (by norm_num) hx0
  refine ⟨(calcConf_closed _ _ _).trans (claimFormula_closed _ _ _).symm, ?_, ?_⟩ <;>
    rw [calcConf_closed] <;> split_ifs <;> linarith

/-- Witness for C6 at one match on a text without an exact mention. -/
theorem C6_witness :
    calculateConfidence 1 "phishing mail".data "T1566".data
        = confidenceClaimFormula 1 "phishing mail".data "T1566".data
      ∧ 0 ≤ calculateConfidence 1 "phishing mail".data "T1566".data
      ∧ calculateConfidence 1 "phishing mail".data "T1566".data ≤ 1 :=
  C6_confidence_formula 1 "phishing mail".data "T1566".data (by decide)

/-- Every technique the pattern loop emits gets its confidence from
calculateConfidence at a positive match count. -/
theorem ttpLoop_conf_mem (e : TechniqueExtractor) (t : List Char) :
    ∀ (pats : List (String × List PatAlt)) (seen : List String) (ttp : TTP),
      ttp ∈ ttpLoop e t pats seen →
      ∃ n, 1 ≤ n ∧ ttp.confidence = calculateConfidence n t ttp.techniqueID.data := by
  intro pats
  induction pats with
  | nil => intro seen ttp h; simp [ttpLoop] at h
  | cons p rest ih =>
    intro seen ttp h
    obtain ⟨id, pat⟩ := p
    simp only [ttpLoop] at h
    split at h
    · rcases List.mem_cons.mp h with h1 | h2
      · subst h1
        rename_i hcond
        exact ⟨(findAllIdx pat t 3).length, hcond.1, rfl⟩
      · exact ih _ _ h2
    · exact ih _ _ h

/-- C10: every technique ExtractTTPs returns has confidence between 0.55 and
0.9 inclusive, so the clamp at 1.0 is unreachable. -/
theorem C10_confidence_range (e : TechniqueExtractor) (text : String) (ttp : TTP)
    (h : ttp ∈ extractTTPsGo e text) :
    (0.55 : ℚ) ≤ ttp.confidence ∧ ttp.confidence ≤ 0.9 := by
  simp only [extractTTPsGo] at h
  obtain ⟨n, hn, hconf⟩ := ttpLoop_conf_mem e _ _ _ _ h
  rw [hconf]
  exact calculateConfidence_bounds n _ _ hn

/-- A sample technique for concrete executions. -/
def sampleTech : AttackTechnique :=
  { id := "T0001", name := "alphaword", description := "", keywords := []
    platforms := [], tactics := ["t1"] }

/-- A sample compiled extractor holding the sample technique. -/
def sampleExtractor : TechniqueExtractor :=
  { techniques := [("T0001", sampleTech)]
    patterns := [("T0001", compileTechPattern "T0001" sampleTech)] }

unseal Rat.ofScientific Rat.add Rat.mul Rat.inv in
/-- Witness for C10 on a concrete extractor and text. -/
theorem C10_witness :
    extractTTPsGo sampleExtractor "alphaword here"
        = [⟨"T0001", 0.55, "alphaword here", "t1"⟩]
      ∧ (0.55 : ℚ) ≤ (⟨"T0001", 0.55, "alphaword here", "t1"⟩ : TTP).confidence
      ∧ (⟨"T0001", 0.55, "alphaword here", "t1"⟩ : TTP).confidence ≤ 0.9 :=
  ⟨by decide, C10_confidence_range sampleExtractor "alphaword here" _ (by decide)⟩

/-! ## Theorems about BuildGenome input validation -/

/-- C7: BuildGenome fails with the explicit no-records error exactly on an
empty batch, and always returns a genome on a non-empty batch. -/
theorem C7_empty_input (sortImpl : List TTP → List TTP) (aOrd cOrd : List String)
    (now : Int) (today : String) (records : List CTIRecord) :
    (records = [] →
      BuildGenome sortImpl aOrd cOrd now today records = .error "no records provided")
    ∧ (records ≠ [] →
      ∃ g, BuildGenome sortImpl aOrd cOrd now today records = .ok g) := by
  constructor
  · rintro rfl
    rfl
  · intro h
    cases records with
    | nil => exact absurd rfl h
    | cons r rs => exact ⟨_, rfl⟩

/-- A sample record carrying one extracted technique. -/
def sampleRecord : CTIRecord :=
  { id := "r1", source := "file:r1", date := 1, actor := "APT1", campaign := ""
    rawText := "", ttps := [⟨"T1566", 0.8, "", "initial-access"⟩], iocs := [], tags := [] }

/-- Witness for C7 on the empty batch and on a singleton batch. -/
theorem C7_witness :
    BuildGenome id [] [] 0 "20230101" [] = .error "no records provided"
    ∧ ∃ g, BuildGenome id [] [] 0 "20230101" [sampleRecord] = .ok g :=
  ⟨(C7_empty_input id [] [] 0 "20230101" []).1 rfl,
   (C7_empty_input id [] [] 0 "20230101" [sampleRecord]).2 (List.cons_ne_nil _ _)⟩

/-! ## Theorems about indicator filtering (C1) -/

/-- Every indicator the inner match loop adds beyond the accumulator passes
isValidIOC for its own type and value. -/
theorem iocAddMatches_valid (t : List Char) (ty : String) :
    ∀ (ms : List String) (seen : List String) (acc : List IOC) (ioc : IOC),
      ioc ∈ (iocAddMatches t ty ms (seen, acc)).2 →
      ioc ∈ acc ∨ isValidIOC ioc.type ioc.value = true := by
  intro ms
  induction ms with
  | nil => intro seen acc ioc h; exact Or.inl h
  | cons m rest ih =>
    intro seen acc ioc h
    simp only [iocAddMatches] at h
    split at h
    · rename_i hcond
      rcases ih _ _ _ h with h1 | h2
      · rcases List.mem_append.mp h1 with h3 | h4
        · exact Or.inl h3
        · right
          rcases List.mem_singleton.mp h4 with rfl
          exact hcond.2
      · exact Or.inr h2
    · exact ih _ _ _ h

/-- Every indicator the outer type loop adds beyond the accumulator passes
isValidIOC. -/
theorem iocOuter_valid (t : List Char) :
    ∀ (pats : List (String × List PatAlt)) (st : List String × List IOC) (ioc : IOC),
      ioc ∈ (iocOuter t pats st).2 →
      ioc ∈ st.2 ∨ isValidIOC ioc.type ioc.value = true := by
  intro pats
  induction pats with
  | nil => intro st ioc h; exact Or.inl h
  | cons p rest ih =>
    intro st ioc h
    obtain ⟨ty, pat⟩ := p
    simp only [iocOuter] at h
    rcases ih _ _ h with h1 | h2
    · obtain ⟨seen, acc⟩ := st
      exact iocAddMatches_valid t ty _ _ _ _ h1
    · exact Or.inr h2

/-- What passing the filter as an ip means: neither blocked prefix, and a
non-empty value. -/
theorem isValidIOC_ip_elim (v : String) (h : isValidIOC "ip" v = true) :
    hasPre v "127." = false ∧ hasPre v "10." = false ∧ v ≠ "" := by
  unfold isValidIOC at h
  rw [if_pos rfl] at h
  by_cases hc : (hasPre v "127." || hasPre v "10.") = true
  · rw [if_pos hc] at h
    simp at h
  · rw [if_neg hc] at h
    simp only [Bool.or_eq_true, not_or, Bool.not_eq_true] at hc
    refine ⟨hc.1, hc.2, ?_⟩
    intro hemp
    subst hemp
    exact absurd h (by decide)

/-- What passing the filter as a domain means: no blacklisted substring, and
a non-empty value. -/
theorem isValidIOC_domain_elim (v : String) (h : isValidIOC "domain" v = true) :
    (∀ d ∈ commonDomains, containsStr v d = false) ∧ v ≠ "" := by
  unfold isValidIOC at h
  rw [if_neg (by decide), if_pos rfl] at h
  by_cases hc : (commonDomains.any fun c => containsStr v c) = true
  · rw [if_pos hc] at h
    simp at h
  · rw [if_neg hc] at h
    rw [Bool.not_eq_true, List.any_eq_false] at hc
    refine ⟨fun d hd => Bool.not_eq_true _ |>.mp (hc d hd), ?_⟩
    intro hemp
    subst hemp
    exact absurd h (by decide)

/-- Passing the filter for any type forces a non-empty value. -/
theorem isValidIOC_ne_elim (ty v : String) (h : isValidIOC ty v = true) : v ≠ "" := by
  intro hemp
  subst hemp
  unfold isValidIOC at h
  split at h
  · rw [if_neg (by decide)] at h
    exact absurd h (by decide)
  · split at h
    · rw [if_neg (by decide)] at h
      exact absurd h (by decide)
    · exact absurd h (by decide)

/-- C1 (amended): every indicator ExtractIOCs emits passes the validity
filter: an ip value never starts with 127. or 10., a domain value never
contains a blacklisted benign domain, and every value is non-empty.  (The
code does not exclude the 192.168 range; see the counterexample.) -/
theorem C1_ioc_filter (iocPats : List (String × List PatAlt)) (text : String) (ioc : IOC)
    (h : ioc ∈ extractIOCsGo iocPats text) :
    (ioc.type = "ip" → hasPre ioc.value "127." = false ∧ hasPre ioc.value "10." = false)
    ∧ (ioc.type = "domain" → ∀ d ∈ commonDomains, containsStr ioc.value d = false)
    ∧ ioc.value ≠ "" := by
  have hv : isValidIOC ioc.type ioc.value = true := by
    rcases iocOuter_valid text.data iocPats ([], []) ioc h with h1 | h2
    · simp at h1
    · exact h2
  refine ⟨?_, ?_, isValidIOC_ne_elim _ _ hv⟩
  · intro hip
    rw [hip] at hv
    exact ⟨(isValidIOC_ip_elim _ hv).1, (isValidIOC_ip_elim _ hv).2.1⟩
  · intro hdom
    rw [hdom] at hv
    exact (isValidIOC_domain_elim _ hv).1

/-- Witness for C1 on a concrete text yielding one public address. -/
theorem C1_witness :
    (⟨"ip", "8.8.8.8", "c2 at 8.8.8.8"⟩ : IOC) ∈ extractIOCsGo iocPatsDefault "c2 at 8.8.8.8"
    ∧ hasPre "8.8.8.8" "127." = false ∧ hasPre "8.8.8.8" "10." = false :=
  ⟨by decide,
   (C1_ioc_filter iocPatsDefault "c2 at 8.8.8.8"
      ⟨"ip", "8.8.8.8", "c2 at 8.8.8.8"⟩ (by decide)).1 rfl⟩

/-- Counterexample to C1 as stated: the private address 192.168.1.1 is
emitted as a network-address indicator, because the filter only tests the
prefixes 127. and 10. -/
theorem C1_counterexample :
    (⟨"ip", "192.168.1.1", "c2 at 192.168.1.1"⟩ : IOC)
      ∈ extractIOCsGo iocPatsDefault "c2 at 192.168.1.1" := by decide

/-! ## Theorems about extraction determinism (C5) -/

/-- The per-technique outcome of the pattern loop, as a function of the text
and the technique entry alone. -/
def ttpEntry (techniques : List (String × AttackTechnique)) (t : List Char)
    (p : String × List PatAlt) : Option TTP :=
  let ms := findAllIdx p.2 t 3
  if ms.length > 0 then
    some
      ⟨p.1, calculateConfidence ms.length t p.1.data,
        (match ms with
         | [] => ""
         | m :: _ => extractContext t m.1 m.2 40),
        (match lookupTech techniques p.1 with
         | some tech =>
           (match tech.tactics with
            | [] => ""
            | tac :: _ => tac)
         | none => "")⟩
  else none

/-- With distinct fresh keys the pattern loop is the entry map over the
iteration order: the seen set never fires. -/
theorem ttpLoop_eq_filterMap (e : TechniqueExtractor) (t : List Char) :
    ∀ (pats : List (String × List PatAlt)) (seen : List String),
      (∀ p ∈ pats, p.1 ∉ seen) → (pats.map Prod.fst).Nodup →
      ttpLoop e t pats seen = pats.filterMap (ttpEntry e.techniques t) := by
  intro pats
  induction pats with
  | nil => intro seen _ _; rfl
  | cons p rest ih =>
    intro seen hfresh hnd
    obtain ⟨id, pat⟩ := p
    have hid : id ∉ seen := hfresh _ (List.mem_cons_self _ _)
    have hndrest : (rest.map Prod.fst).Nodup := by
      rw [List.map_cons, List.nodup_cons] at hnd
      exact hnd.2
    have hidrest : id ∉ rest.map Prod.fst := by
      rw [List.map_cons, List.nodup_cons] at hnd
      exact hnd.1
    by_cases hms : (findAllIdx pat t 3).length > 0
    · simp only [ttpLoop, ttpEntry, List.filterMap_cons]
      rw [if_pos ⟨hms, hid⟩, if_pos hms]
      congr 1
      refine ih (id :: seen) ?_ hndrest
      intro q hq hqmem
      rcases List.mem_cons.mp hqmem with h1 | h2
      · exact hidrest (h1 ▸ List.mem_map_of_mem Prod.fst hq)
      · exact hfresh q (List.mem_cons_of_mem _ hq) h2
    · simp only [ttpLoop, ttpEntry, List.filterMap_cons]
      rw [if_neg (fun hc => hms hc.1), if_neg hms]
      exact ih seen (fun q hq => hfresh q (List.mem_cons_of_mem _ hq)) hndrest

/-- C5 (amended): ExtractTTPs over the same compiled catalog and text
produces, for any two map iteration orders, permutations of one list of
techniques: the same multiset, hence the same set of identifiers, with
identical confidence, context and tactic fields per technique; the order of
the result follows the iteration order and is therefore not deterministic. -/
theorem C5_extract_order (techs : List (String × AttackTechnique))
    (p1 p2 : List (String × List PatAlt)) (text : String)
    (hnd : (p1.map Prod.fst).Nodup) (hperm : List.Perm p1 p2) :
    List.Perm (extractTTPsGo ⟨techs, p1⟩ text) (extractTTPsGo ⟨techs, p2⟩ text)
    ∧ ∀ ttp : TTP,
        ttp ∈ extractTTPsGo ⟨techs, p1⟩ text ↔ ttp ∈ extractTTPsGo ⟨techs, p2⟩ text := by
  have hnd2 : (p2.map Prod.fst).Nodup := ((hperm.map Prod.fst).nodup_iff).mp hnd
  simp only [extractTTPsGo]
  rw [ttpLoop_eq_filterMap _ _ p1 [] (by simp) hnd,
    ttpLoop_eq_filterMap _ _ p2 [] (by simp) hnd2]
  have hp := hperm.filterMap (ttpEntry techs
    (if text.data.length > 50000 then List.take 50000 text.data ++ "...".data else text.data))
  exact ⟨hp, fun ttp => hp.mem_iff⟩

/-- A second sample technique. -/
def sampleTech2 : AttackTechnique :=
  { id := "T0002", name := "betaword", description := "", keywords := []
    platforms := [], tactics := ["t2"] }

/-- The sample technique table with two entries. -/
def sampleTechs : List (String × AttackTechnique) :=
  [("T0001", sampleTech), ("T0002", sampleTech2)]

/-- The two-pattern map in one iteration order. -/
def patsAB : List (String × List PatAlt) :=
  [("T0001", compileTechPattern "T0001" sampleTech),
   ("T0002", compileTechPattern "T0002" sampleTech2)]

/-- The same map in the other iteration order. -/
def patsBA : List (String × List PatAlt) :=
  [("T0002", compileTechPattern "T0002" sampleTech2),
   ("T0001", compileTechPattern "T0001" sampleTech)]

/-- Witness for C5: the two iteration orders of the sample catalog give
permuted results. -/
theorem C5_witness :
    List.Perm (extractTTPsGo ⟨sampleTechs, patsAB⟩ "alphaword betaword")
      (extractTTPsGo ⟨sampleTechs, patsBA⟩ "alphaword betaword") :=
  (C5_extract_order sampleTechs patsAB patsBA "alphaword betaword" (by decide)
    (List.Perm.swap _ _ _)).1

unseal Rat.ofScientific Rat.add Rat.mul Rat.inv in
/-- Counterexample to C5 as stated: the two iteration orders of the same
compiled catalog return different result lists on the same text, and
neither order is sorted by technique identifier in general, so the result
list is not deterministic. -/
theorem C5_counterexample :
    (extractTTPsGo ⟨sampleTechs, patsAB⟩ "alphaword betaword").map (fun p => p.techniqueID)
        = ["T0001", "T0002"]
      ∧ (extractTTPsGo ⟨sampleTechs, patsBA⟩ "alphaword betaword").map (fun p => p.techniqueID)
        = ["T0002", "T0001"]
      ∧ extractTTPsGo ⟨sampleTechs, patsAB⟩ "alphaword betaword"
        ≠ extractTTPsGo ⟨sampleTechs, patsBA⟩ "alphaword betaword"
      ∧ List.Perm patsAB patsBA :=
  ⟨by decide, by decide, by decide, List.Perm.swap _ _ _⟩

/-! ## Theorems about actor and campaign resolution (C4) -/

instance (votes order : List String) : Decidable (ValidIterOrder votes order) :=
  inferInstanceAs (Decidable (List.Perm votes.dedup order))

/-- If no remaining key beats the running maximum, the argmax loop keeps its
current best candidate. -/
theorem pickBestAux_const (votes : List String) :
    ∀ (order : List String) (best : String) (m : Nat),
      (∀ x ∈ order, votes.count x ≤ m) → pickBestAux votes order best m = best := by
  intro order
  induction order with
  | nil => intro best m _; rfl
  | cons k rest ih =>
    intro best m hall
    simp only [pickBestAux]
    rw [if_neg (not_lt.mpr (hall k (List.mem_cons_self _ _)))]
    exact ih best m (fun x hx => hall x (List.mem_cons_of_mem _ hx))

/-- When one candidate has a strictly larger count than all the others and
than the running maximum, the argmax loop returns it, whatever the key
order. -/
theorem pickBestAux_argmax (votes : List String) (a : String) :
    ∀ (order : List String) (best : String) (m : Nat),
      m < votes.count a → a ∈ order →
      (∀ x ∈ order, x ≠ a → votes.count x < votes.count a) →
      pickBestAux votes order best m = a := by
  intro order
  induction order with
  | nil => intro best m _ ha _; cases ha
  | cons k rest ih =>
    intro best m hm ha hmax
    by_cases hk : k = a
    · subst hk
      simp only [pickBestAux]
      rw [if_pos hm]
      refine pickBestAux_const votes rest k (votes.count k) ?_
      intro x hx
      by_cases hxa : x = k
      · exact hxa ▸ le_refl _
      · exact (hmax x (List.mem_cons_of_mem _ hx) hxa).le
    · have ha' : a ∈ rest := by
        rcases List.mem_cons.mp ha with h1 | h2
        · exact absurd h1.symm hk
        · exact h2
      have hmax' : ∀ x ∈ rest, x ≠ a → votes.count x < votes.count a :=
        fun x hx hxa => hmax x (List.mem_cons_of_mem _ hx) hxa
      simp only [pickBestAux]
      by_cases hck : votes.count k > m
      · rw [if_pos hck]
        exact ih k (votes.count k) (hmax k (List.mem_cons_self _ _) hk) ha' hmax'
      · rw [if_neg hck]
        exact ih best m hm ha' hmax'

/-- The fields of a successfully built genome, in terms of the aggregation
helpers. -/
theorem BuildGenome_ok_fields (sortImpl : List TTP → List TTP) (aOrd cOrd : List String)
    (now : Int) (today : String) (records : List CTIRecord) (g : Genome)
    (h : BuildGenome sortImpl aOrd cOrd now today records = .ok g) :
    g.ttps = (dedupWalkAux (sortImpl (poolTTPs records)) []).1
    ∧ g.tactics = (dedupWalkAux (sortImpl (poolTTPs records)) []).2.1
    ∧ g.actor = (determineActorAndCampaign records aOrd cOrd).1
    ∧ g.campaign = (determineActorAndCampaign records aOrd cOrd).2 := by
  unfold BuildGenome at h
  split at h
  · cases h
  · cases h
    exact ⟨rfl, rfl, rfl, rfl⟩

/-- C4 (amended): actor and campaign are resolved independently by strict
plurality over the non-empty values (a literal Unknown actor is excluded);
whenever the winner is unique the outcome is the same for every map
iteration order, and in particular actors APT1, APT1, APT2 always give
genome actor APT1; a tied vote, however, is resolved by the map iteration
order (see the counterexample). -/
theorem C4_majority_vote (records : List CTIRecord) (aOrd cOrd : List String) (a c : String)
    (hva : ValidIterOrder (actorVotes records) aOrd)
    (hvc : ValidIterOrder (campaignVotes records) cOrd)
    (ha : a ∈ actorVotes records)
    (hamax : ∀ b ∈ actorVotes records, b ≠ a →
      (actorVotes records).count b < (actorVotes records).count a)
    (hc : c ∈ campaignVotes records)
    (hcmax : ∀ b ∈ campaignVotes records, b ≠ c →
      (campaignVotes records).count b < (campaignVotes records).count c) :
    determineActorAndCampaign records aOrd cOrd = (a, c)
    ∧ ∀ (sortImpl : List TTP → List TTP) (now : Int) (today : String) (g : Genome),
        BuildGenome sortImpl aOrd cOrd now today records = .ok g →
        g.actor = a ∧ g.campaign = c := by
  have hmema : ∀ x, x ∈ aOrd ↔ x ∈ actorVotes records :=
    fun x => (hva.mem_iff).symm.trans List.mem_dedup
  have hmemc : ∀ x, x ∈ cOrd ↔ x ∈ campaignVotes records :=
    fun x => (hvc.mem_iff).symm.trans List.mem_dedup
  have h1 : pickBestAux (actorVotes records) aOrd "" 0 = a :=
    pickBestAux_argmax _ a aOrd "" 0 (List.count_pos_iff.mpr ha) ((hmema a).mpr ha)
      (fun x hx => hamax x ((hmema x).mp hx))
  have h2 : pickBestAux (campaignVotes records) cOrd "" 0 = c :=
    pickBestAux_argmax _ c cOrd "" 0 (List.count_pos_iff.mpr hc) ((hmemc c).mpr hc)
      (fun x hx => hcmax x ((hmemc x).mp hx))
  have hda : determineActorAndCampaign records aOrd cOrd = (a, c) := by
    unfold determineActorAndCampaign
    rw [h1, h2]
  refine ⟨hda, ?_⟩
  intro sortImpl now today g hbg
  obtain ⟨-, -, hact, hcamp⟩ := BuildGenome_ok_fields _ _ _ _ _ _ _ hbg
  rw [hact, hcamp, hda]
  exact ⟨rfl, rfl⟩

/-- A record template with only metadata fields. -/
def mkMetaRecord (rid actor campaign : String) : CTIRecord :=
  { id := rid, source := "", date := 1, actor := actor, campaign := campaign
    rawText := "", ttps := [], iocs := [], tags := [] }

/-- The batch of the claim example: actors APT1, APT1, APT2. -/
def c4recs : List CTIRecord :=
  [mkMetaRecord "r1" "APT1" "X", mkMetaRecord "r2" "APT1" "X", mkMetaRecord "r3" "APT2" "Y"]

/-- Witness for C4 on the claim example. -/
theorem C4_witness :
    determineActorAndCampaign c4recs ["APT1", "APT2"] ["X", "Y"] = ("APT1", "X") :=
  (C4_majority_vote c4recs ["APT1", "APT2"] ["X", "Y"] "APT1" "X" (by decide) (by decide)
    (by decide) (by decide) (by decide) (by decide)).1

/-- A batch with a tied actor vote. -/
def c4tieRecs : List CTIRecord :=
  [mkMetaRecord "r1" "APT1" "", mkMetaRecord "r2" "APT2" ""]

/-- Counterexample to C4 as stated: on a tied vote the resolved actor
depends on the map iteration order, so ties are not broken
deterministically. -/
theorem C4_counterexample :
    ValidIterOrder (actorVotes c4tieRecs) ["APT1", "APT2"]
    ∧ ValidIterOrder (actorVotes c4tieRecs) ["APT2", "APT1"]
    ∧ determineActorAndCampaign c4tieRecs ["APT1", "APT2"] []
        ≠ determineActorAndCampaign c4tieRecs ["APT2", "APT1"] [] :=
  ⟨by decide, by decide, by decide⟩

/-! ## Theorems about genome deduplication (C8, C3) -/

/-- The dedup walk factors through the list of surviving first occurrences:
identifiers, defaulted tactics and the confidence sum are its images. -/
theorem dedupWalkAux_eq_firstOcc :
    ∀ (l : List TTP) (seen : List String),
      dedupWalkAux l seen
        = ((firstOccByID l seen).map (fun p => p.techniqueID),
           (firstOccByID l seen).map (fun p => if p.tactic = "" then "unknown" else p.tactic),
           ((firstOccByID l seen).map (fun p => p.confidence)).sum) := by
  intro l
  induction l with
  | nil => intro seen; rfl
  | cons ttp rest ih =>
    intro seen
    simp only [dedupWalkAux, firstOccByID]
    by_cases hs : ttp.techniqueID ∈ seen
    · rw [if_pos hs, if_pos hs]
      exact ih _
    · rw [if_neg hs, if_neg hs, ih (ttp.techniqueID :: seen)]
      simp [List.map_cons, List.sum_cons]

/-- The surviving identifiers are distinct and avoid the seen set. -/
theorem firstOcc_ids_nodup :
    ∀ (l : List TTP) (seen : List String),
      ((firstOccByID l seen).map (fun p => p.techniqueID)).Nodup
      ∧ ∀ x ∈ (firstOccByID l seen).map (fun p => p.techniqueID), x ∉ seen := by
  intro l
  induction l with
  | nil =>
    intro seen
    refine ⟨List.nodup_nil, ?_⟩
    intro x hx
    simp [firstOccByID] at hx
  | cons ttp rest ih =>
    intro seen
    simp only [firstOccByID]
    by_cases hs : ttp.techniqueID ∈ seen
    · rw [if_pos hs]
      exact ih seen
    · rw [if_neg hs]
      obtain ⟨hnd, hfr⟩ := ih (ttp.techniqueID :: seen)
      constructor
      · rw [List.map_cons, List.nodup_cons]
        exact ⟨fun hmem => (hfr _ hmem) (List.mem_cons_self _ _), hnd⟩
      · intro x hx
        rw [List.map_cons, List.mem_cons] at hx
        rcases hx with h1 | h2
        · exact h1 ▸ hs
        · exact fun hxs => hfr x h2 (List.mem_cons_of_mem _ hxs)

/-- C8: the technique sequence of every genome BuildGenome returns contains
no duplicate technique identifiers. -/
theorem C8_no_duplicate_ttps (sortImpl : List TTP → List TTP) (aOrd cOrd : List String)
    (now : Int) (today : String) (records : List CTIRecord) (g : Genome)
    (h : BuildGenome sortImpl aOrd cOrd now today records = .ok g) :
    g.ttps.Nodup := by
  obtain ⟨hts, -, -, -⟩ := BuildGenome_ok_fields _ _ _ _ _ _ _ h
  rw [hts, dedupWalkAux_eq_firstOcc]
  exact (firstOcc_ids_nodup _ _).1

deriving instance DecidableEq for Except

/-- The genome built from the sample record. -/
def c8genome : Genome :=
  { id := "G-20230101-c4a652883ffc", sourceIDs := ["r1"], actor := "APT1", campaign := ""
    ttps := ["T1566"], tactics := ["initial-access"], platforms := [], cves := []
    firstSeen := 1, lastSeen := 1, confidence := 0.8, sourceCount := 1, iocCount := 0
    allSourceText := "\n", metadata := { buildTime := 0, ttpCount := 1, uniqueTactics := 1 } }

set_option maxRecDepth 100000 in
set_option maxHeartbeats 1000000 in
unseal Rat.ofScientific Rat.add Rat.mul Rat.inv in
/-- Witness for C8 on the sample batch. -/
theorem C8_witness :
    BuildGenome (fun l => l) ["APT1"] [] 0 "20230101" [sampleRecord] = .ok c8genome
    ∧ c8genome.ttps.Nodup :=
  ⟨by decide, C8_no_duplicate_ttps (fun l => l) ["APT1"] [] 0 "20230101" [sampleRecord]
    c8genome (by decide)⟩

instance (input output : List TTP) : Decidable (SortSliceSpec input output) :=
  inferInstanceAs (Decidable (_ ∧ _))

/-- find? on a cons whose head satisfies the predicate. -/
theorem findCons_pos {α : Type} (p : α → Bool) (a : α) (l : List α) (h : p a = true) :
    (a :: l).find? p = some a := by
  simp [List.find?_cons, h]

/-- find? on a cons whose head fails the predicate. -/
theorem findCons_neg {α : Type} (p : α → Bool) (a : α) (l : List α) (h : p a = false) :
    (a :: l).find? p = l.find? p := by
  simp [List.find?_cons, h]

/-- Fresh keys make the dedup walk and the raw list agree on the first match
of a key. -/
theorem firstOcc_find (t : String) :
    ∀ (l : List TTP) (seen : List String), t ∉ seen →
      (firstOccByID l seen).find? (fun p => p.techniqueID == t)
        = l.find? (fun p => p.techniqueID == t) := by
  intro l
  induction l with
  | nil => intro seen _; rfl
  | cons ttp rest ih =>
    intro seen hts
    simp only [firstOccByID]
    by_cases hs : ttp.techniqueID ∈ seen
    · rw [if_pos hs]
      have hne : (ttp.techniqueID == t) = false := by
        rw [beq_eq_false_iff_ne]
        intro he
        exact hts (he ▸ hs)
      rw [findCons_neg (fun p => p.techniqueID == t) ttp rest hne]
      exact ih seen hts
    · rw [if_neg hs]
      by_cases he : (ttp.techniqueID == t) = true
      · rw [findCons_pos (fun p => p.techniqueID == t) ttp _ he,
          findCons_pos (fun p => p.techniqueID == t) ttp rest he]
      · have he2 : (ttp.techniqueID == t) = false := by simpa using he
        rw [findCons_neg (fun p => p.techniqueID == t) ttp _ he2,
          findCons_neg (fun p => p.techniqueID == t) ttp rest he2]
        refine ih (ttp.techniqueID :: seen) ?_
        intro hmem
        rcases List.mem_cons.mp hmem with h1 | h2
        · exact he (beq_iff_eq.mpr h1.symm)
        · exact hts h2

/-- In a list sorted by confidence descending, a uniquely maximal occurrence
of a technique is its first occurrence. -/
theorem sorted_find_max (t : String) (o : TTP) :
    ∀ l : List TTP,
      l.Pairwise (fun a b => b.confidence ≤ a.confidence) →
      o ∈ l → o.techniqueID = t →
      (∀ p ∈ l, p.techniqueID = t → p = o ∨ p.confidence < o.confidence) →
      l.find? (fun p => p.techniqueID == t) = some o := by
  intro l
  induction l with
  | nil => intro _ ho _ _; cases ho
  | cons x rest ih =>
    intro hpw ho hot hmax
    rcases List.pairwise_cons.mp hpw with ⟨hx, hpw2⟩
    by_cases hxt : x.techniqueID = t
    · have hxo : x = o := by
        rcases hmax x (List.mem_cons_self _ _) hxt with h1 | h1
        · exact h1
        · exfalso
          rcases List.mem_cons.mp ho with h2 | h2
          · rw [← h2] at h1
            exact lt_irrefl _ h1
          · exact (not_lt.mpr (hx o h2)) h1
      rw [findCons_pos (fun p => p.techniqueID == t) x rest (beq_iff_eq.mpr hxt), hxo]
    · have ho' : o ∈ rest := by
        rcases List.mem_cons.mp ho with h1 | h1
        · exact absurd (by rw [← h1]; exact hot) hxt
        · exact h1
      rw [findCons_neg (fun p => p.techniqueID == t) x rest (beq_eq_false_iff_ne.mpr hxt)]
      exact ih hpw2 ho' hot (fun p hp hpt => hmax p (List.mem_cons_of_mem _ hp) hpt)

/-- C3 (amended): BuildGenome sorts the pooled techniques by confidence
descending with Go sort.Slice, whose contract does not promise stability;
for every technique whose maximal confidence is uniquely attained, that
occurrence is the surviving entry of the dedup walk, determining both the
surviving confidence contribution and the surviving tactic label, and the
genome's technique and tactic sequences are the survivor images.  (For
equal-confidence ties see the counterexample.) -/
theorem C3_winner_rule (records : List CTIRecord) (sortImpl : List TTP → List TTP)
    (aOrd cOrd : List String) (now : Int) (today : String) (o : TTP) (t : String) (g : Genome)
    (hsort : SortSliceSpec (poolTTPs records) (sortImpl (poolTTPs records)))
    (ho : o ∈ poolTTPs records) (hot : o.techniqueID = t)
    (hmax : ∀ p ∈ poolTTPs records, p.techniqueID = t → p = o ∨ p.confidence < o.confidence)
    (hbg : BuildGenome sortImpl aOrd cOrd now today records = .ok g) :
    (firstOccByID (sortImpl (poolTTPs records)) []).find? (fun p => p.techniqueID == t)
        = some o
      ∧ g.ttps = (firstOccByID (sortImpl (poolTTPs records)) []).map (fun p => p.techniqueID)
      ∧ g.tactics = (firstOccByID (sortImpl (poolTTPs records)) []).map
          (fun p => if p.tactic = "" then "unknown" else p.tactic) := by
  obtain ⟨hperm, hpw⟩ := hsort
  have hfind : (sortImpl (poolTTPs records)).find? (fun p => p.techniqueID == t) = some o :=
    sorted_find_max t o _ hpw (hperm.mem_iff.mpr ho) hot
      (fun p hp hpt => hmax p (hperm.mem_iff.mp hp) hpt)
  obtain ⟨hts, htac, -, -⟩ := BuildGenome_ok_fields _ _ _ _ _ _ _ hbg
  refine ⟨?_, ?_, ?_⟩
  · rw [firstOcc_find t _ [] (by simp)]
    exact hfind
  · rw [hts, dedupWalkAux_eq_firstOcc]
  · rw [htac, dedupWalkAux_eq_firstOcc]

/-- A record template carrying one extracted technique. -/
def mkTTPRecord (rid : String) (date : Int) (ttp : TTP) : CTIRecord :=
  { id := rid, source := "", date := date, actor := "", campaign := ""
    rawText := "", ttps := [ttp], iocs := [], tags := [] }

/-- The batch of the claim example: technique X at 0.9 with tactic t1 and at
0.5 with tactic t2. -/
def c3recs : List CTIRecord :=
  [mkTTPRecord "r1" 1 ⟨"X", 0.9, "", "t1"⟩, mkTTPRecord "r2" 2 ⟨"X", 0.5, "", "t2"⟩]

/-- The genome the claim-example batch builds. -/
def c3genome : Genome :=
  { id := "G-20230101-ad0264153ce4", sourceIDs := ["r1", "r2"], actor := "", campaign := ""
    ttps := ["X"], tactics := ["t1"], platforms := [], cves := []
    firstSeen := 1, lastSeen := 2, confidence := 0.9, sourceCount := 2, iocCount := 0
    allSourceText := "\n\n", metadata := { buildTime := 0, ttpCount := 1, uniqueTactics := 1 } }

set_option maxRecDepth 100000 in
set_option maxHeartbeats 1000000 in
unseal Rat.ofScientific Rat.add Rat.mul Rat.inv in
/-- Witness for C3: on the claim example the 0.9 occurrence with tactic t1
survives. -/
theorem C3_witness :
    (firstOccByID ((fun l => l) (poolTTPs c3recs)) []).find? (fun p => p.techniqueID == "X")
        = some ⟨"X", 0.9, "", "t1"⟩
      ∧ c3genome.ttps
          = (firstOccByID ((fun l => l) (poolTTPs c3recs)) []).map (fun p => p.techniqueID)
      ∧ c3genome.tactics = (firstOccByID ((fun l => l) (poolTTPs c3recs)) []).map
          (fun p => if p.tactic = "" then "unknown" else p.tactic) :=
  C3_winner_rule c3recs (fun l => l) [] [] 0 "20230101" ⟨"X", 0.9, "", "t1"⟩ "X" c3genome
    (by decide) (by decide) rfl (by decide) (by decide)

/-- A batch with an equal-confidence tie: technique X at 0.7 with tactic t1
pooled before X at 0.7 with tactic t2. -/
def c3tieRecs : List CTIRecord :=
  [mkTTPRecord "r1" 1 ⟨"X", 0.7, "", "t1"⟩, mkTTPRecord "r2" 2 ⟨"X", 0.7, "", "t2"⟩]

/-- The genome built from the tied batch when the sort returns the reversed
pool, which the sort.Slice contract allows on equal confidences. -/
def c3tieGenome : Genome :=
  { id := "G-20230101-ad0264153ce4", sourceIDs := ["r1", "r2"], actor := "", campaign := ""
    ttps := ["X"], tactics := ["t2"], platforms := [], cves := []
    firstSeen := 1, lastSeen := 2, confidence := 0.7, sourceCount := 2, iocCount := 0
    allSourceText := "\n\n", metadata := { buildTime := 0, ttpCount := 1, uniqueTactics := 1 } }

set_option maxRecDepth 100000 in
set_option maxHeartbeats 1000000 in
unseal Rat.ofScientific Rat.add Rat.mul Rat.inv in
/-- Counterexample to C3 as stated: the reversed pool is also a valid
outcome of the unstable sort on the tied batch, and under it the surviving
tactic is t2, not the tactic t1 of the earlier pooled occurrence, so
equal-confidence entries are not guaranteed to keep their original relative
order. -/
theorem C3_counterexample :
    SortSliceSpec (poolTTPs c3tieRecs) ((poolTTPs c3tieRecs).reverse)
    ∧ (poolTTPs c3tieRecs).map (fun p => p.tactic) = ["t1", "t2"]
    ∧ BuildGenome (fun l => l.reverse) [] [] 0 "20230101" c3tieRecs = .ok c3tieGenome
    ∧ c3tieGenome.tactics = ["t2"] :=
  ⟨by decide, by decide, by decide, by decide⟩

/-! ## Theorems about genome identity (C2) -/

/-- String append concatenates the underlying character lists. -/
theorem strData_append (s t : String) : (s ++ t).data = s.data ++ t.data := by
  cases s
  cases t
  rfl

/-- C2 (amended): the genome identifier is a pure function of the canonical
technique sequence, actor, campaign and the build date: with equal
sequences, actors and campaigns, the identifiers agree exactly when the
(equal-length) date components agree, so rebuilding on a different day
yields a different identifier. -/
theorem C2_genome_identity (ttps : List String) (actor campaign d d' : String)
    (hlen : d.length = d'.length) :
    generateGenomeID ttps actor campaign d = generateGenomeID ttps actor campaign d'
      ↔ d = d' := by
  constructor
  · intro h
    simp only [generateGenomeID] at h
    have hd := congrArg String.data h
    simp only [strData_append, List.append_assoc] at hd
    have hmid := List.append_cancel_left hd
    have hlen2 : d.data.length = d'.data.length := hlen
    have hdd : d.data = d'.data := List.append_inj_left hmid hlen2
    exact congrArg String.mk hdd
  · rintro rfl
    rfl

/-- Witness for C2: two builds of the same content on consecutive days. -/
theorem C2_witness :
    generateGenomeID ["T1566"] "APT1" "" "20230101"
        = generateGenomeID ["T1566"] "APT1" "" "20230102"
      ↔ ("20230101" : String) = "20230102" :=
  C2_genome_identity ["T1566"] "APT1" "" "20230101" "20230102" rfl

set_option maxRecDepth 100000 in
set_option maxHeartbeats 1000000 in
/-- Counterexample to C2 as stated: the same canonical technique sequence,
actor and campaign give different identifiers on different build dates,
because the identifier embeds the calendar date next to the content hash. -/
theorem C2_counterexample :
    generateGenomeID ["T1566"] "APT1" "" "20230101"
      ≠ generateGenomeID ["T1566"] "APT1" "" "20230102" := by decide

/-! ## Theorems about the statistics engine (C9) -/

/-- Folding bump over a list adds the occurrence count at every key. -/
theorem foldl_bump_apply :
    ∀ (l : List String) (f : String → Nat) (t : String),
      (l.foldl bump f) t = f t + l.count t := by
  intro l
  induction l with
  | nil => intro f t; simp
  | cons a rest ih =>
    intro f t
    simp only [List.foldl_cons]
    rw [ih, List.count_cons]
    by_cases hta : t = a
    · subst hta
      simp [bump]
      omega
    · simp [bump, hta, Ne.symm hta]

/-- The tactic fold adds the occurrence count at every key other than
unknown. -/
theorem foldl_bumpTac_apply :
    ∀ (l : List String) (f : String → Nat) (τ : String), τ ≠ "unknown" →
      (l.foldl (fun f tac => if tac ≠ "unknown" then bump f tac else f) f) τ
        = f τ + l.count τ := by
  intro l
  induction l with
  | nil => intro f τ _; simp
  | cons a rest ih =>
    intro f τ hτ
    simp only [List.foldl_cons]
    rw [ih _ _ hτ, List.count_cons]
    by_cases ha : a = "unknown"
    · have hτa : ¬ τ = a := fun he => hτ (he.trans ha)
      rw [if_neg (by simpa using ha)]
      simp [hτa, Ne.symm hτa]
    · rw [if_pos (by simpa using ha)]
      by_cases hτa : τ = a
      · subst hτa
        simp [bump]
        omega
      · simp [bump, hτa, Ne.symm hτa]

/-- The tactic fold never writes the unknown key. -/
theorem foldl_bumpTac_unknown :
    ∀ (l : List String) (f : String → Nat),
      (l.foldl (fun f tac => if tac ≠ "unknown" then bump f tac else f) f) "unknown"
        = f "unknown" := by
  intro l
  induction l with
  | nil => intro f; simp
  | cons a rest ih =>
    intro f
    simp only [List.foldl_cons]
    rw [ih]
    by_cases ha : a = "unknown"
    · rw [if_neg (by simpa using ha)]
    · rw [if_pos (by simpa using ha)]
      simp [bump, Ne.symm ha]

/-- The cursor scan counts the decoded entries. -/
theorem statsFold_totalGenomes :
    ∀ (entries : List (Option Genome)) (acc : StatsAcc),
      (statsFold acc entries).totalGenomes
        = acc.totalGenomes + (decodedGenomes entries).length := by
  intro entries
  induction entries with
  | nil => intro acc; simp [statsFold, decodedGenomes]
  | cons e rest ih =>
    intro acc
    cases e with
    | none => simpa [statsFold, decodedGenomes] using ih acc
    | some g =>
      simp only [statsFold, decodedGenomes, List.filterMap_cons] at *
      rw [ih (statsStep acc g)]
      simp [statsStep]
      omega

/-- The cursor scan sums the technique-sequence lengths. -/
theorem statsFold_totalLength :
    ∀ (entries : List (Option Genome)) (acc : StatsAcc),
      (statsFold acc entries).totalLength
        = acc.totalLength + ((decodedGenomes entries).map (fun g => g.ttps.length)).sum := by
  intro entries
  induction entries with
  | nil => intro acc; simp [statsFold, decodedGenomes]
  | cons e rest ih =>
    intro acc
    cases e with
    | none => simpa [statsFold, decodedGenomes] using ih acc
    | some g =>
      simp only [statsFold, decodedGenomes, List.filterMap_cons] at *
      rw [ih (statsStep acc g)]
      simp [statsStep]
      omega

/-- The cursor scan adds, per decoded genome, its occurrence count of every
technique. -/
theorem statsFold_ttpFreq :
    ∀ (entries : List (Option Genome)) (acc : StatsAcc) (t : String),
      (statsFold acc entries).ttpFreq t
        = acc.ttpFreq t + ((decodedGenomes entries).map (fun g => g.ttps.count t)).sum := by
  intro entries
  induction entries with
  | nil => intro acc t; simp [statsFold, decodedGenomes]
  | cons e rest ih =>
    intro acc t
    cases e with
    | none => simpa [statsFold, decodedGenomes] using ih acc t
    | some g =>
      simp only [statsFold, decodedGenomes, List.filterMap_cons] at *
      rw [ih (statsStep acc g) t]
      have hstep : (statsStep acc g).ttpFreq t = acc.ttpFreq t + g.ttps.count t :=
        foldl_bump_apply g.ttps acc.ttpFreq t
      rw [hstep]
      simp
      omega

/-- The cursor scan adds, per decoded genome, its occurrence count of every
tactic other than unknown. -/
theorem statsFold_tacticFreq :
    ∀ (entries : List (Option Genome)) (acc : StatsAcc) (τ : String), τ ≠ "unknown" →
      (statsFold acc entries).tacticFreq τ
        = acc.tacticFreq τ + ((decodedGenomes entries).map (fun g => g.tactics.count τ)).sum := by
  intro entries
  induction entries with
  | nil => intro acc τ _; simp [statsFold, decodedGenomes]
  | cons e rest ih =>
    intro acc τ hτ
    cases e with
    | none => simpa [statsFold, decodedGenomes] using ih acc τ hτ
    | some g =>
      simp only [statsFold, decodedGenomes, List.filterMap_cons] at *
      rw [ih (statsStep acc g) τ hτ]
      have hstep : (statsStep acc g).tacticFreq τ = acc.tacticFreq τ + g.tactics.count τ :=
        foldl_bumpTac_apply g.tactics acc.tacticFreq τ hτ
      rw [hstep]
      simp
      omega

/-- The cursor scan never counts the unknown tactic. -/
theorem statsFold_tacticFreq_unknown :
    ∀ (entries : List (Option Genome)) (acc : StatsAcc),
      (statsFold acc entries).tacticFreq "unknown" = acc.tacticFreq "unknown" := by
  intro entries
  induction entries with
  | nil => intro acc; rfl
  | cons e rest ih =>
    intro acc
    cases e with
    | none => simpa [statsFold] using ih acc
    | some g =>
      simp only [statsFold] at *
      rw [ih (statsStep acc g)]
      exact foldl_bumpTac_unknown g.tactics acc.tacticFreq

/-- Insertion into a set list preserves distinctness and adds the element. -/
theorem insertOnce_nodup (l : List String) (x : String) (h : l.Nodup) :
    (insertOnce l x).Nodup ∧ ∀ y, y ∈ insertOnce l x ↔ y ∈ l ∨ y = x := by
  unfold insertOnce
  by_cases hx : x ∈ l
  · rw [if_pos hx]
    exact ⟨h, fun y => ⟨Or.inl, fun hy => hy.elim id (fun he => he ▸ hx)⟩⟩
  · rw [if_neg hx]
    constructor
    · rw [List.nodup_append]
      refine ⟨h, List.nodup_singleton x, ?_⟩
      intro a ha hax
      rw [List.mem_singleton] at hax
      exact hx (hax ▸ ha)
    · intro y
      simp [List.mem_append]

/-- The actor set of the scan: distinct, and exactly the initial actors plus
the non-empty actors of the decoded genomes. -/
theorem statsFold_actors :
    ∀ (entries : List (Option Genome)) (acc : StatsAcc), acc.actors.Nodup →
      (statsFold acc entries).actors.Nodup
      ∧ ∀ x, x ∈ (statsFold acc entries).actors
          ↔ x ∈ acc.actors
            ∨ x ∈ (decodedGenomes entries).filterMap
                (fun g => if g.actor = "" then none else some g.actor) := by
  intro entries
  induction entries with
  | nil =>
    intro acc hnd
    refine ⟨hnd, ?_⟩
    intro x
    simp [statsFold, decodedGenomes]
  | cons e rest ih =>
    intro acc hnd
    cases e with
    | none =>
      obtain ⟨h1, h2⟩ := ih acc hnd
      refine ⟨h1, ?_⟩
      intro x
      rw [show statsFold acc (none :: rest) = statsFold acc rest from rfl, h2 x]
      simp [decodedGenomes]
    | some g =>
      by_cases hga : g.actor = ""
      · have hstep : (statsStep acc g).actors = acc.actors := by
          simp [statsStep, hga]
        obtain ⟨h1, h2⟩ := ih (statsStep acc g) (hstep ▸ hnd)
        refine ⟨h1, ?_⟩
        intro x
        rw [show statsFold acc (some g :: rest) = statsFold (statsStep acc g) rest from rfl,
          h2 x, hstep]
        simp [decodedGenomes, List.filterMap_cons, hga]
      · have hstep : (statsStep acc g).actors = insertOnce acc.actors g.actor := by
          simp [statsStep, hga]
        obtain ⟨hi1, hi2⟩ := insertOnce_nodup acc.actors g.actor hnd
        obtain ⟨h1, h2⟩ := ih (statsStep acc g) (hstep ▸ hi1)
        refine ⟨h1, ?_⟩
        intro x
        rw [show statsFold acc (some g :: rest) = statsFold (statsStep acc g) rest from rfl,
          h2 x, hstep, hi2 x]
        simp only [decodedGenomes, List.filterMap_cons, id]
        rw [if_neg hga]
        simp [List.mem_cons]
        tauto

/-- The campaign set of the scan, symmetrically. -/
theorem statsFold_campaigns :
    ∀ (entries : List (Option Genome)) (acc : StatsAcc), acc.campaigns.Nodup →
      (statsFold acc entries).campaigns.Nodup
      ∧ ∀ x, x ∈ (statsFold acc entries).campaigns
          ↔ x ∈ acc.campaigns
            ∨ x ∈ (decodedGenomes entries).filterMap
                (fun g => if g.campaign = "" then none else some g.campaign) := by
  intro entries
  induction entries with
  | nil =>
    intro acc hnd
    refine ⟨hnd, ?_⟩
    intro x
    simp [statsFold, decodedGenomes]
  | cons e rest ih =>
    intro acc hnd
    cases e with
    | none =>
      obtain ⟨h1, h2⟩ := ih acc hnd
      refine ⟨h1, ?_⟩
      intro x
      rw [show statsFold acc (none :: rest) = statsFold acc rest from rfl, h2 x]
      simp [decodedGenomes]
    | some g =>
      by_cases hgc : g.campaign = ""
      · have hstep : (statsStep acc g).campaigns = acc.campaigns := by
          simp [statsStep, hgc]
        obtain ⟨h1, h2⟩ := ih (statsStep acc g) (hstep ▸ hnd)
        refine ⟨h1, ?_⟩
        intro x
        rw [show statsFold acc (some g :: rest) = statsFold (statsStep acc g) rest from rfl,
          h2 x, hstep]
        simp [decodedGenomes, List.filterMap_cons, hgc]
      · have hstep : (statsStep acc g).campaigns = insertOnce acc.campaigns g.campaign := by
          simp [statsStep, hgc]
        obtain ⟨hi1, hi2⟩ := insertOnce_nodup acc.campaigns g.campaign hnd
        obtain ⟨h1, h2⟩ := ih (statsStep acc g) (hstep ▸ hi1)
        refine ⟨h1, ?_⟩
        intro x
        rw [show statsFold acc (some g :: rest) = statsFold (statsStep acc g) rest from rfl,
          h2 x, hstep, hi2 x]
        simp only [decodedGenomes, List.filterMap_cons, id]
        rw [if_neg hgc]
        simp [List.mem_cons]
        tauto

/-- A distinct list with the same members as another list has the length of
that list deduplicated. -/
theorem nodup_length_eq_dedup (L M : List String) (hL : L.Nodup)
    (hmem : ∀ x, x ∈ L ↔ x ∈ M) : L.length = M.dedup.length := by
  have h2 : ∀ x, x ∈ L ↔ x ∈ M.dedup :=
    fun x => (hmem x).trans (List.mem_dedup).symm
  exact ((List.perm_ext_iff_of_nodup hL (List.nodup_dedup M)).mpr h2).length_eq

/-- Summing occurrence counts over duplicate-free sequences counts the
containing genomes. -/
theorem sum_count_eq_filter (t : String) :
    ∀ L : List Genome, (∀ g ∈ L, g.ttps.Nodup) →
      (L.map (fun g => g.ttps.count t)).sum
        = (L.filter (fun g => t ∈ g.ttps)).length := by
  intro L
  induction L with
  | nil => intro _; simp
  | cons g rest ih =>
    intro hnd
    have hg : g.ttps.Nodup := hnd g (List.mem_cons_self _ _)
    have hrest := ih (fun g2 hg2 => hnd g2 (List.mem_cons_of_mem _ hg2))
    simp only [List.map_cons, List.sum_cons, List.filter_cons]
    by_cases hmem : t ∈ g.ttps
    · rw [List.count_eq_one_of_mem hg hmem, if_pos (by simpa using hmem)]
      simp [hrest]
      omega
    · rw [List.count_eq_zero_of_not_mem hmem, if_neg (by simpa using hmem)]
      simp [hrest]

/-- C9 (amended): GetGenomeStats counts each technique once per occurrence
in a genome's technique sequence, which is once per genome containing it as
long as stored technique sequences are duplicate-free (as all BuildGenome
outputs are); tactic occurrences are counted excluding the unknown
placeholder; the unique actor and campaign counts are the cardinalities of
the sets of distinct non-empty actors and campaigns; and the average genome
length is the summed sequence length divided by the genome count, or 0 when
there are no genomes. -/
theorem C9_stats (entries : List (Option Genome)) (t τ : String)
    (hnd : ∀ g ∈ decodedGenomes entries, g.ttps.Nodup) (hτ : τ ≠ "unknown") :
    (GetGenomeStats entries).totalGenomes = (decodedGenomes entries).length
    ∧ (GetGenomeStats entries).ttpFrequency t = countGenomesContaining entries t
    ∧ (GetGenomeStats entries).tacticFrequency τ
        = ((decodedGenomes entries).map (fun g => g.tactics.count τ)).sum
    ∧ (GetGenomeStats entries).tacticFrequency "unknown" = 0
    ∧ (GetGenomeStats entries).uniqueActors
        = ((decodedGenomes entries).filterMap
            (fun g => if g.actor = "" then none else some g.actor)).dedup.length
    ∧ (GetGenomeStats entries).uniqueCampaigns
        = ((decodedGenomes entries).filterMap
            (fun g => if g.campaign = "" then none else some g.campaign)).dedup.length
    ∧ (GetGenomeStats entries).avgGenomeLength
        = (if 0 < (decodedGenomes entries).length then
            (((((decodedGenomes entries).map (fun g => g.ttps.length)).sum : ℕ)) : ℚ)
              / ((decodedGenomes entries).length : ℚ)
          else 0) := by
  have htotal : (statsFold initStatsAcc entries).totalGenomes = (decodedGenomes entries).length := by
    rw [statsFold_totalGenomes]
    simp [initStatsAcc]
  have hlen : (statsFold initStatsAcc entries).totalLength
      = ((decodedGenomes entries).map (fun g => g.ttps.length)).sum := by
    rw [statsFold_totalLength]
    simp [initStatsAcc]
  refine ⟨htotal, ?_, ?_, ?_, ?_, ?_, ?_⟩
  · show (statsFold initStatsAcc entries).ttpFreq t = _
    rw [statsFold_ttpFreq]
    show 0 + _ = _
    rw [Nat.zero_add, countGenomesContaining]
    exact sum_count_eq_filter t _ hnd
  · show (statsFold initStatsAcc entries).tacticFreq τ = _
    rw [statsFold_tacticFreq _ _ _ hτ]
    simp [initStatsAcc]
  · show (statsFold initStatsAcc entries).tacticFreq "unknown" = 0
    rw [statsFold_tacticFreq_unknown]
    simp [initStatsAcc]
  · show (statsFold initStatsAcc entries).actors.length = _
    obtain ⟨h1, h2⟩ := statsFold_actors entries initStatsAcc List.nodup_nil
    refine nodup_length_eq_dedup _ _ h1 ?_
    intro x
    rw [h2 x]
    simp [initStatsAcc]
  · show (statsFold initStatsAcc entries).campaigns.length = _
    obtain ⟨h1, h2⟩ := statsFold_campaigns entries initStatsAcc List.nodup_nil
    refine nodup_length_eq_dedup _ _ h1 ?_
    intro x
    rw [h2 x]
    simp [initStatsAcc]
  · show (if (statsFold initStatsAcc entries).totalGenomes > 0 then
        ((statsFold initStatsAcc entries).totalLength : ℚ)
          / ((statsFold initStatsAcc entries).totalGenomes : ℚ)
      else 0) = _
    rw [htotal, hlen]

/-- A stored genome with a duplicate-free technique sequence. -/
def c9gA : Genome :=
  { id := "g1", sourceIDs := [], actor := "APT1", campaign := "X"
    ttps := ["T1", "T2"], tactics := ["t1", "t2"], platforms := [], cves := []
    firstSeen := 0, lastSeen := 0, confidence := 0, sourceCount := 1, iocCount := 0
    allSourceText := "", metadata := { buildTime := 0, ttpCount := 2, uniqueTactics := 2 } }

/-- Another stored genome, with an unknown tactic entry and no campaign. -/
def c9gB : Genome :=
  { id := "g2", sourceIDs := [], actor := "APT1", campaign := ""
    ttps := ["T1"], tactics := ["t1", "unknown"], platforms := [], cves := []
    firstSeen := 0, lastSeen := 0, confidence := 0, sourceCount := 1, iocCount := 0
    allSourceText := "", metadata := { buildTime := 0, ttpCount := 1, uniqueTactics := 2 } }

/-- A stored collection with one corrupt entry. -/
def c9entries : List (Option Genome) := [some c9gA, none, some c9gB]

/-- Witness for C9 on the sample collection. -/
theorem C9_witness :
    (GetGenomeStats c9entries).ttpFrequency "T1" = countGenomesContaining c9entries "T1"
    ∧ (GetGenomeStats c9entries).tacticFrequency "unknown" = 0 :=
  ⟨(C9_stats c9entries "T1" "t1" (by decide) (by decide)).2.1,
   (C9_stats c9entries "T1" "t1" (by decide) (by decide)).2.2.2.1⟩

/-- A stored genome whose technique sequence repeats an identifier, as the
store does not forbid. -/
def c9dupGenome : Genome :=
  { id := "g3", sourceIDs := [], actor := "", campaign := ""
    ttps := ["T1", "T1"], tactics := [], platforms := [], cves := []
    firstSeen := 0, lastSeen := 0, confidence := 0, sourceCount := 1, iocCount := 0
    allSourceText := "", metadata := { buildTime := 0, ttpCount := 2, uniqueTactics := 0 } }

/-- Counterexample to C9 as stated: on a stored genome with a duplicated
technique the frequency table counts the occurrences, 2, not the single
containing genome. -/
theorem C9_counterexample :
    (GetGenomeStats [some c9dupGenome]).ttpFrequency "T1" = 2
    ∧ countGenomesContaining [some c9dupGenome] "T1" = 1
    ∧ (GetGenomeStats [some c9dupGenome]).ttpFrequency "T1"
        ≠ countGenomesContaining [some c9dupGenome] "T1" :=
  ⟨by decide, by decide, by decide⟩

end ThreatDNA
